import Mathlib

/-!
# Verification of the flatfile storage engine

A shallow embedding of the `flatfile` key/value store (package `flatfile`):
the cell data model, the pot (cell catalog), the bin (size-sorted free list
of deleted cells, `bin.go`), the mem cache (`mem.Push`/`mem.Remove`), the
header (load/select/update/flush), the stream/page layer, and the facade
operations `put`/`get`/`delete`/`reopen`, together with the intent-replay
routine `restoreFromIntents`.

Modelling conventions:
* Go byte strings (keys and values) are `List Nat`.
* Go's shared mutable `*cell` pointers are modelled by an append-only heap
  (`List cell`) with addresses (`Nat` indices); every container (pot, bin,
  mem, key map, dirty map) stores addresses into that heap, so aliasing is
  preserved exactly.
* Go maps are association lists; map iteration (which Go leaves unspecified)
  is modelled as iteration in list order.
* Files are modelled at the level the engine manipulates them: stream page
  files as byte lists, the header file as a 4-byte magic region plus the
  list of appended cell records (the byte encoding of a record is delegated
  in the source to the external `binaryex` library and is abstracted here,
  as is `hash/crc32`, of which only determinism is relevant).
* Runtime panics (out-of-range slice indexing, the `panic("BzZzz...")`
  sanity checks) and Go error returns are distinguished by the `Res` type.
-/

/-- The error taxonomy of `errors.go` plus wrapped lower-level causes. -/
inductive GoErr where
  | invalidKey
  | duplicateKey
  | blobTooBig
  | keyNotFound
  | checksumFailed
  | immutableFile
  | ioErr (msg : String)
  | wrap (ctx : String) (e : GoErr)
deriving DecidableEq, Repr

/-- Result of a Go computation: normal value, error return, or runtime panic. -/
inductive Res (α : Type) where
  | ok (a : α)
  | er (e : GoErr)
  | pan (msg : String)
deriving DecidableEq, Repr

/-- `true` iff the result is a normal value. -/
def Res.isOk {α : Type} : Res α → Bool
  | .ok _ => true
  | _ => false

/-- `true` iff the result is a runtime panic. -/
def Res.isPan {α : Type} : Res α → Bool
  | .pan _ => true
  | _ => false

/-- Extract the value of an `ok` result, with a fallback for the other cases. -/
def Res.getD {α : Type} (r : Res α) (d : α) : α :=
  match r with
  | .ok a => a
  | _ => d

/-- Bind for `Res`, propagating errors and panics. -/
def Res.bind {α β : Type} (r : Res α) (f : α → Res β) : Res β :=
  match r with
  | .ok a => f a
  | .er e => .er e
  | .pan m => .pan m

/-- `CellState` of `cell.go`: `StateNormal`, `StateDeleted`, `StateReused`. -/
inductive CellState where
  | StateNormal
  | StateDeleted
  | StateReused
deriving DecidableEq, Repr

/-- `cell` of `cell.go`: the header entry describing one blob, including the
in-memory-only fields `cache` and `key`.  Addresses of cells live in a heap;
this structure is the pointee. -/
structure cell where
  CellID : Nat
  PageIndex : Int
  Offset : Int
  Allocated : Int
  Used : Int
  CellState : CellState
  CRC32 : Nat
  cache : Option (List Nat)
  key : List Nat
deriving DecidableEq, Repr

/-- The zero value `cell{}` of Go (also `deletedCells.Pop`'s sentinel). -/
def zeroCell : cell :=
  { CellID := 0, PageIndex := 0, Offset := 0, Allocated := 0, Used := 0,
    CellState := .StateNormal, CRC32 := 0, cache := none, key := [] }

instance : Inhabited cell := ⟨zeroCell⟩

/-- `cell.BlobEndPos`: `c.Offset + c.Allocated`. -/
def cell.BlobEndPos (c : cell) : Int :=
  c.Offset + c.Allocated

/-- A persisted header record: the length-prefixed key followed by the
marshalled exported cell fields (`cell.write` / `header.load`).  The
in-memory-only fields `cache` and `key` are not part of the marshalled cell;
the key travels as the separate leading string. -/
structure HRec where
  key : List Nat
  CellID : Nat
  PageIndex : Int
  Offset : Int
  Allocated : Int
  Used : Int
  CellState : CellState
  CRC32 : Nat
deriving DecidableEq, Repr

/-- `cell.write c key`: the record appended to the header file for `c`. -/
def cellRecord (key : List Nat) (c : cell) : HRec :=
  { key := key, CellID := c.CellID, PageIndex := c.PageIndex,
    Offset := c.Offset, Allocated := c.Allocated, Used := c.Used,
    CellState := c.CellState, CRC32 := c.CRC32 }

/-- The loaded cell built by `header.load` from a record: `cell.key` is set
from the record's leading string, the exported fields from the marshalled
bytes, and the unexported `cache` stays nil. -/
def HRec.toCell (r : HRec) : cell :=
  { CellID := r.CellID, PageIndex := r.PageIndex, Offset := r.Offset,
    Allocated := r.Allocated, Used := r.Used, CellState := r.CellState,
    CRC32 := r.CRC32, cache := none, key := r.key }

/-- Abstract model of `hash/crc32.ChecksumIEEE` (external library); the
engine only relies on it being a deterministic function of the blob. -/
def crc32ieee (data : List Nat) : Nat :=
  data.foldl (fun h b => (h * 131 + b + 1) % 4294967296) 5381

/-- Association-list lookup (Go map read `m[k]`). -/
def alookup {ν : Type} (l : List (List Nat × ν)) (k : List Nat) : Option ν :=
  match l with
  | [] => none
  | (k₀, v₀) :: rest => if k₀ = k then some v₀ else alookup rest k

/-- Association-list store (Go map write `m[k] = v`): replaces in place, or
appends when the key is new. -/
def astore {ν : Type} (l : List (List Nat × ν)) (k : List Nat) (v : ν) :
    List (List Nat × ν) :=
  match l with
  | [] => [(k, v)]
  | (k₀, v₀) :: rest =>
      if k₀ = k then (k, v) :: rest else (k₀, v₀) :: astore rest k v

/-- Association-list removal (Go `delete(m, k)`). -/
def aerase {ν : Type} (l : List (List Nat × ν)) (k : List Nat) :
    List (List Nat × ν) :=
  match l with
  | [] => []
  | (k₀, v₀) :: rest =>
      if k₀ = k then rest else (k₀, v₀) :: aerase rest k

/-- Nat-keyed association-list lookup (Go `map[CellID]...` read). -/
def nlookup {ν : Type} (l : List (Nat × ν)) (k : Nat) : Option ν :=
  match l with
  | [] => none
  | (k₀, v₀) :: rest => if k₀ = k then some v₀ else nlookup rest k

/-- Nat-keyed association-list store (Go `map[CellID]...` write). -/
def nstore {ν : Type} (l : List (Nat × ν)) (k : Nat) (v : ν) :
    List (Nat × ν) :=
  match l with
  | [] => [(k, v)]
  | (k₀, v₀) :: rest =>
      if k₀ = k then (k, v) :: rest else (k₀, v₀) :: nstore rest k v

/-- Nat-keyed association-list removal (Go `delete`). -/
def nerase {ν : Type} (l : List (Nat × ν)) (k : Nat) : List (Nat × ν) :=
  match l with
  | [] => []
  | (k₀, v₀) :: rest =>
      if k₀ = k then rest else (k₀, v₀) :: nerase rest k

/-- The loop of Go's `sort.Search` on the half-open interval `[i, j)`:
binary search for the least index at which the predicate holds, assuming the
predicate is upward closed on the searched range.  The interval shrinks at
every iteration, so a fuel of `j - i` steps suffices; fuel is threaded
explicitly to keep the function structurally recursive. -/
def searchLoop (f : Nat → Bool) : Nat → Nat → Nat → Nat
  | 0, i, _ => i
  | fuel + 1, i, j =>
      if i < j then
        let m := (i + j) / 2
        if f m then searchLoop f fuel i m else searchLoop f fuel (m + 1) j
      else i

/-- `sort.Search n f`: least index in `[0, n]` at which the monotone
predicate `f` first holds (`n` when it never does). -/
def sortSearch (n : Nat) (f : Nat → Bool) : Nat :=
  searchLoop f n 0 n

/-- The subset of `Options` (options.go) the storage engine consults, plus
the internal `utility` flag marking nested (mirror/intents) instances. -/
structure GoOptions where
  CRC : Bool
  MaxCacheMemory : Int
  CachedWrites : Bool
  MaxPageSize : Int
  PreallocatePages : Bool
  PersistentHeader : Bool
  Immutable : Bool
  ZeroPadDeleted : Bool
  CompactHeader : Bool
  UseIntents : Bool
  utility : Bool
deriving DecidableEq, Repr

/-- `NewOptions()`/`Options.init()` default values. -/
def NewOptions : GoOptions :=
  { CRC := true, MaxCacheMemory := 33554432, CachedWrites := false,
    MaxPageSize := 4294967295, PreallocatePages := true,
    PersistentHeader := true, Immutable := false, ZeroPadDeleted := true,
    CompactHeader := true, UseIntents := false, utility := false }

/-- The `.header` signature `hdr` (header.go): `F1 47 F1 13`. -/
def magicBytes : List Nat := [0xF1, 0x47, 0xF1, 0x13]

/-- On-disk state of one store directory: the header file (its 4-byte magic
region and the appended cell records) and the stream page files' bytes. -/
structure Disk where
  hdrBytes : List Nat
  records : List HRec
  pageFiles : List (List Nat)
deriving DecidableEq, Repr

/-- A store directory before any session: no header, no pages. -/
def emptyDisk : Disk :=
  { hdrBytes := [], records := [], pageFiles := [] }

/-- In-memory session state of a `FlatFile`: the cell heap (modelling Go's
shared `*cell` pointers), the pot, bin, mem and key structures of `header`,
the number of open stream pages, the disk, and the options. -/
structure FF where
  heap : List cell
  potMaxid : Nat
  potCells : List (Nat × Nat)
  binCells : List Nat
  binIds : List (Nat × Nat)
  memQueue : List Nat
  memKeys : List (List Nat × Nat)
  memSize : Int
  keys : List (List Nat × Nat)
  dirty : List (Nat × Nat)
  lastKey : List Nat
  streamPages : Nat
  disk : Disk
  opts : GoOptions
deriving DecidableEq, Repr

/-- Dereference a cell pointer (heap address). -/
def FF.cellAt (s : FF) (a : Nat) : cell :=
  s.heap.getD a zeroCell

/-- Write through a cell pointer (heap address). -/
def FF.setCell (s : FF) (a : Nat) (c : cell) : FF :=
  { s with heap := s.heap.set a c }

/-- `pot.New` (pot.go): allocate the next cell with state `StateNormal` at
the offset after the current last unique cell.  `PageIndex` is not assigned
(it keeps the zero value).  When `maxid > 0` but the map has no entry for it
the Go code dereferences a nil `*cell` and panics. -/
def potNew (s : FF) : Res (FF × Nat) :=
  if s.potMaxid > 0 then
    match nlookup s.potCells s.potMaxid with
    | none => .pan "runtime error: invalid memory address or nil pointer dereference"
    | some la =>
        let off := (s.cellAt la).BlobEndPos
        let cid := s.potMaxid + 1
        let c := { zeroCell with CellState := .StateNormal, Offset := off, CellID := cid }
        let a := s.heap.length
        .ok ({ s with heap := s.heap ++ [c], potMaxid := cid,
                      potCells := nstore s.potCells cid a }, a)
  else
    let cid := s.potMaxid + 1
    let c := { zeroCell with CellState := .StateNormal, CellID := cid }
    let a := s.heap.length
    .ok ({ s with heap := s.heap ++ [c], potMaxid := cid,
                  potCells := nstore s.potCells cid a }, a)

/-- `pot.Destroy` (pot.go): remove the cell from the pot; when it was the
cell with the maximum id, roll `maxid` back by one. -/
def potDestroy (s : FF) (a : Nat) : FF :=
  let cid := (s.cellAt a).CellID
  match nlookup s.potCells cid with
  | none => s
  | some _ =>
      { s with potCells := nerase s.potCells cid,
               potMaxid := if cid = s.potMaxid then s.potMaxid - 1 else s.potMaxid }

/-- The closure passed to `sort.Search` by the bin operations:
`b.cells[i].Allocated >= x`.  Out-of-range probes (which `sort.Search`
never makes) default to `true`. -/
def binSearchPred (s : FF) (x : Int) (i : Nat) : Bool :=
  match s.binCells.get? i with
  | some a => decide (x ≤ (s.cellAt a).Allocated)
  | none => true

/-- `bin.Trash` (bin.go): insert a deleted cell preserving ascending
`Allocated` order.  Faithful to the source: the empty-bin branch appends
without recording the cell in `cellids`, and when the search returns
`len(b.cells)` the subsequent `b.cells[i]` access panics. -/
def binTrash (s : FF) (a : Nat) : Res FF :=
  let c := s.cellAt a
  if s.binCells.length = 0 then
    .ok { s with binCells := [a] }
  else
    let i := sortSearch s.binCells.length (binSearchPred s c.Allocated)
    match s.binCells.get? i with
    | none => .pan "runtime error: index out of range"
    | some b =>
        if (s.cellAt b).CellID = c.CellID then .pan "BzZzz..."
        else
          .ok { s with binCells := s.binCells.take i ++ a :: s.binCells.drop i,
                       binIds := nstore s.binIds c.CellID a }

/-- `bin.Recycle` (bin.go): binary-search the first binned cell whose
`Allocated` satisfies `minsize`; remove and return it (`some addr`), or
return the sentinel `&cell{}` (`none`) when no binned cell is big enough. -/
def binRecycle (s : FF) (minsize : Int) : FF × Option Nat :=
  let i := sortSearch s.binCells.length (binSearchPred s minsize)
  match s.binCells.get? i with
  | some a =>
      if minsize ≤ (s.cellAt a).Allocated then
        ({ s with binCells := s.binCells.eraseIdx i,
                  binIds := nerase s.binIds (s.cellAt a).CellID }, some a)
      else (s, none)
  | none => (s, none)

/-- `bin.Remove` (bin.go): remove a cell from the bin by `cell_id`,
reporting whether it was found. -/
def binRemove (s : FF) (a : Nat) : FF × Bool :=
  let c := s.cellAt a
  match nlookup s.binIds c.CellID with
  | none => (s, false)
  | some _ =>
      let i := sortSearch s.binCells.length (binSearchPred s c.Allocated)
      match s.binCells.get? i with
      | none => (s, false)
      | some b =>
          if (s.cellAt b).CellID ≠ c.CellID then (s, false)
          else ({ s with binIds := nerase s.binIds (s.cellAt b).CellID,
                         binCells := s.binCells.eraseIdx i }, true)

/-- The eviction loop of `mem.Push` (mem.go): pop cells from the front of
the queue until the queue is empty or `size - c.Used < maxalloc`; each
evicted cell loses its key lookup, its `Used` is subtracted from the running
total and its cache slot is cleared. -/
def memEvictGo (cUsed maxalloc : Int) : Nat → FF → FF
  | 0, s => s
  | fuel + 1, s =>
      match s.memQueue with
      | [] => s
      | f :: rest =>
          if s.memSize - cUsed < maxalloc then s
          else
            let fc := s.cellAt f
            memEvictGo cUsed maxalloc fuel
              { s with memQueue := rest,
                       memKeys := aerase s.memKeys fc.key,
                       memSize := s.memSize - fc.Used,
                       heap := s.heap.set f { fc with cache := none } }

/-- See `memEvictGo`: every iteration pops one queue element, so the queue
length is sufficient fuel. -/
def memEvict (s : FF) (cUsed maxalloc : Int) : FF :=
  memEvictGo cUsed maxalloc s.memQueue.length s

/-- `mem.Push` (mem.go): an already-cached key is moved to the back of the
queue; otherwise evict from the front (see `memEvict`), append the cell and
add its `Used` to the running total. -/
def memPush (s : FF) (a : Nat) (maxalloc : Int) : FF :=
  let c := s.cellAt a
  match alookup s.memKeys c.key with
  | some a₀ => { s with memQueue := (s.memQueue.erase a₀) ++ [a₀] }
  | none =>
      let s₁ := memEvict s c.Used maxalloc
      { s₁ with memQueue := s₁.memQueue ++ [a],
                memKeys := astore s₁.memKeys c.key a,
                memSize := s₁.memSize + c.Used }

/-- `mem.Remove` (mem.go): unlink the queue element found under `c.key`,
subtract its `Used`, clear `c`'s cache slot and drop the key lookup. -/
def memRemove (s : FF) (a : Nat) : FF :=
  let c := s.cellAt a
  match alookup s.memKeys c.key with
  | none => s
  | some a₀ =>
      let c₀ := s.cellAt a₀
      let s₁ := { s with memSize := s.memSize - c₀.Used,
                         memQueue := s.memQueue.erase a₀,
                         memKeys := aerase s.memKeys c.key }
      s₁.setCell a { s₁.cellAt a with cache := none }

/-- The `Pot.New` leg of `header.Select`: `c.Used = size; c.Allocated = size`. -/
def selectNew (s : FF) (size : Int) : Res (FF × Nat) :=
  (potNew s).bind fun sa =>
    let c := sa.1.cellAt sa.2
    .ok (sa.1.setCell sa.2 { c with Used := size, Allocated := size }, sa.2)

/-- `header.Select` (header.go): with `reuse`, try `Bin.Recycle(size)`; a
returned cell with sufficient `Allocated` must be `StateDeleted` (sanity
panic otherwise — the sentinel `&cell{}` trips this check when `size ≤ 0`),
becomes `StateReused` with `Used = size`.  Otherwise allocate via `Pot.New`. -/
def headerSelect (s : FF) (reuse : Bool) (size : Int) : Res (FF × Nat) :=
  if reuse then
    let sr := binRecycle s size
    match sr.2 with
    | some a =>
        let c := sr.1.cellAt a
        if size ≤ c.Allocated then
          if c.CellState ≠ .StateDeleted then .pan "BzZzz..."
          else .ok (sr.1.setCell a { c with CellState := .StateReused, Used := size }, a)
        else selectNew sr.1 size
    | none =>
        -- the sentinel &cell{} has Allocated = 0 and CellState = StateNormal
        if size ≤ (0 : Int) then .pan "BzZzz..."
        else selectNew sr.1 size
  else selectNew s size

/-- `header.Use`: commit the cell as live under its key (`keys[c.key] = c`,
`lastKey = c.key`). -/
def headerUse (s : FF) (a : Nat) : FF :=
  let c := s.cellAt a
  { s with keys := astore s.keys c.key a, lastKey := c.key }

/-- `header.Update`: append the cell record to the header file immediately
when `immediate` (persistent header), else mark the cell dirty
(`header.Endirty`). -/
def headerUpdate (s : FF) (a : Nat) (immediate : Bool) : FF :=
  let c := s.cellAt a
  if immediate then
    { s with disk := { s.disk with records := s.disk.records ++ [cellRecord c.key c] } }
  else
    { s with dirty := nstore s.dirty c.CellID a }

/-- `header.Destroy` = `Pot.Destroy`. -/
def headerDestroy (s : FF) (a : Nat) : FF :=
  potDestroy s a

/-- `header.Cache`: set the cell's cache slot to `val`, then `Mem.Push`. -/
def headerCache (s : FF) (a : Nat) (val : List Nat) (limit : Int) : FF :=
  let s₁ := s.setCell a { s.cellAt a with cache := some val }
  memPush s₁ a limit

/-- `header.UnCache` = `Mem.Remove`. -/
def headerUnCache (s : FF) (a : Nat) : FF :=
  memRemove s a

/-- `header.Flush`: append every dirty cell's record (map iteration order
modelled as list order), then clear the dirty map.  No-op when empty. -/
def headerFlush (s : FF) : FF :=
  if s.dirty.length = 0 then s
  else
    let dirtyRecs := s.dirty.map (fun p => cellRecord (s.cellAt p.2).key (s.cellAt p.2))
    { s with disk := { s.disk with records := s.disk.records ++ dirtyRecs },
             dirty := [] }

/-- `header.IsKeyUsed`. -/
def headerIsKeyUsed (s : FF) (key : List Nat) : Bool :=
  (alookup s.keys key).isSome

/-- `file.Truncate n`: cut the file to `n` bytes or zero-extend it. -/
def truncateFile (f : List Nat) (n : Int) : List Nat :=
  if (n.toNat) ≤ f.length then f.take n.toNat
  else f ++ List.replicate (n.toNat - f.length) 0

/-- A seek-and-write at a byte offset: negative offsets fail the seek;
writing past the end zero-fills the gap (sparse file semantics). -/
def writeAt (f : List Nat) (off : Int) (data : List Nat) : Option (List Nat) :=
  if off < 0 then none
  else
    let o := off.toNat
    let g := if f.length < o then f ++ List.replicate (o - f.length) 0 else f
    some (g.take o ++ data ++ g.drop (o + data.length))

/-- `page.Put` (page.go): write the blob at `c.Offset`; when `zeropad` and
the cell is not `StateNormal`, additionally write `Allocated - Used` zero
bytes (a negative count would panic `make`). -/
def pagePut (f : List Nat) (c : cell) (blob : List Nat) (zeropad : Bool) :
    Res (List Nat) :=
  let doPad := zeropad && c.CellState ≠ .StateNormal
  if doPad ∧ c.Allocated - c.Used < 0 then .pan "runtime error: makeslice: len out of range"
  else
    let buf := blob ++ (if doPad then List.replicate (c.Allocated - c.Used).toNat 0 else [])
    match writeAt f c.Offset buf with
    | none => .er (.ioErr "page seek error")
    | some g => .ok g

/-- `page.Get` (page.go): seek to `c.Offset` and read `c.Used` bytes into a
zeroed buffer.  A single `file.Read` fills at most the bytes available after
the offset (the source does not use `ReadFull`); it only errors (`EOF`) when
nothing is available. -/
def pageGet (f : List Nat) (c : cell) : Res (List Nat) :=
  if c.Offset < 0 then .er (.ioErr "page seek error")
  else if c.Used < 0 then .pan "runtime error: makeslice: len out of range"
  else if c.Used = 0 then .ok []
  else
    let got := (f.drop c.Offset.toNat).take c.Used.toNat
    if got.length = 0 then .er (.ioErr "page read error: EOF")
    else .ok (got ++ List.replicate (c.Used.toNat - got.length) 0)

/-- `stream.addNewPage` + `page.newPage`: the next page index is
`len(s.pages)`; the file is opened with `O_CREATE` (an existing stale file
of that name is reused, not truncated) and preallocated to `MaxPageSize`
when configured. -/
def addNewPage (s : FF) : FF × Nat :=
  let idx := s.streamPages
  let file₀ := (s.disk.pageFiles.getD idx [])
  let file₁ :=
    if s.opts.PreallocatePages ∧ 0 < s.opts.MaxPageSize then
      truncateFile file₀ s.opts.MaxPageSize
    else file₀
  let pf :=
    if idx < s.disk.pageFiles.length then s.disk.pageFiles.set idx file₁
    else s.disk.pageFiles ++ [file₁]
  ({ s with disk := { s.disk with pageFiles := pf }, streamPages := idx + 1 }, idx)

/-- `stream.GetCellPage` (stream.go): a non-`StateNormal` cell keeps its
existing page (`s.pages[c.PageIndex]` — an out-of-range index panics);
otherwise the last page is chosen (created when none exists), and when
`c.Offset + c.Allocated ≥ pageSizeLimit` a fresh page is allocated with
`c.Offset` reset to 0.  `c.PageIndex` is updated to the chosen page.
`faultAlloc` injects an I/O failure of `addNewPage`. -/
def getCellPage (s : FF) (a : Nat) (faultAlloc : Bool) : Res (FF × Nat) :=
  let c := s.cellAt a
  if c.CellState ≠ .StateNormal then
    if 0 ≤ c.PageIndex ∧ c.PageIndex < (s.streamPages : Int) then .ok (s, c.PageIndex.toNat)
    else .pan "runtime error: index out of range"
  else
    let first : Res (FF × Nat) :=
      if s.streamPages = 0 then
        if faultAlloc then .er (.ioErr "error creating new page")
        else .ok (addNewPage s)
      else .ok (s, s.streamPages - 1)
    first.bind fun si =>
      let s₁ := si.1
      let c₁ := s₁.cellAt a
      if 0 < s₁.opts.MaxPageSize ∧ s₁.opts.MaxPageSize ≤ c₁.Offset + c₁.Allocated then
        if faultAlloc then .er (.ioErr "error creating new page")
        else
          let sj := addNewPage s₁
          let s₂ := sj.1.setCell a { c₁ with Offset := 0, PageIndex := (sj.2 : Int) }
          .ok (s₂, sj.2)
      else
        .ok (s₁.setCell a { c₁ with PageIndex := (si.2 : Int) }, si.2)

/-- `stream.Open` (stream.go): open the page files `0 .. maxPageID-1`
(read-write, no create): every one of them must already exist on disk. -/
def streamOpen (s : FF) (maxPageID : Int) : Res FF :=
  if maxPageID ≤ (s.disk.pageFiles.length : Int) then
    .ok { s with streamPages := maxPageID.toNat }
  else .er (.ioErr "page file open error")

/-- `stream.Page`: `s.pages[c.PageIndex]`, as the page index (an
out-of-range index panics at the call site). -/
def streamPageIdx (s : FF) (c : cell) : Option Nat :=
  if 0 ≤ c.PageIndex ∧ c.PageIndex < (s.streamPages : Int) then some c.PageIndex.toNat
  else none

/-- Result of a state-mutating facade operation.  Go mutates the shared
structures in place, so an error return still carries the mutated state;
a panic kills the process. -/
inductive StepRes where
  | ok (s : FF)
  | er (s : FF) (e : GoErr)
  | pan (msg : String)
deriving DecidableEq, Repr

/-- `true` iff the step finished normally. -/
def StepRes.isOk : StepRes → Bool
  | .ok _ => true
  | _ => false

/-- `true` iff the step panicked. -/
def StepRes.isPan : StepRes → Bool
  | .pan _ => true
  | _ => false

/-- The state after a normal step, with a fallback. -/
def StepRes.getD (r : StepRes) (d : FF) : FF :=
  match r with
  | .ok s => s
  | _ => d

/-- Fallible I/O points inside `FlatFile.put` after cell selection: the
page allocation (`stream.GetCellPage`), the blob write (`page.Put`) and the
header update (`header.Update`) all perform file I/O that the OS may fail;
`FaultPoint` injects such a failure. -/
inductive FaultPoint where
  | fnone
  | fpageAlloc
  | fblobWrite
  | fheaderUpdate
deriving DecidableEq, Repr

/-- `undoputcell` (cells.go, inside `put`): mid-put error cleanup.  A
`StateNormal` cell is destroyed in the pot; any other cell is un-cached,
its CRC cleared, and it is trashed back into the bin (which may panic, see
`binTrash`). -/
def undoputcell (s : FF) (a : Nat) : Res FF :=
  match (s.cellAt a).CellState with
  | .StateNormal => .ok (headerDestroy s a)
  | _ =>
      let s₁ := headerUnCache s a
      let s₂ := s₁.setCell a { s₁.cellAt a with CRC32 := 0 }
      binTrash s₂ a

/-- `FlatFile.put` (cells.go): duplicate-key and size checks, cell
selection, key assignment, CRC, optional write caching, page acquisition,
blob write, header update, key commit — with `undoputcell` rollback when a
step after selection fails. -/
def ffput (s : FF) (key val : List Nat) (fault : FaultPoint) : StepRes :=
  if headerIsKeyUsed s key then .er s .duplicateKey
  else if 0 < s.opts.MaxPageSize ∧ s.opts.MaxPageSize < (val.length : Int) then
    .er s .blobTooBig
  else
    match headerSelect s (!s.opts.Immutable) (val.length : Int) with
    | .pan m => .pan m
    | .er e => .er s e
    | .ok sa =>
        let s₁ := sa.1
        let a := sa.2
        let s₂ := s₁.setCell a { s₁.cellAt a with key := key }
        let s₃ :=
          if s₂.opts.CRC then s₂.setCell a { s₂.cellAt a with CRC32 := crc32ieee val }
          else s₂
        let s₄ :=
          if 0 < s₃.opts.MaxCacheMemory ∧ s₃.opts.CachedWrites ∧ s₃.opts.utility = false then
            headerCache s₃ a val s₃.opts.MaxCacheMemory
          else s₃
        match (if fault = .fpageAlloc then .er (.ioErr "page alloc fault")
               else getCellPage s₄ a false) with
        | .pan m => .pan m
        | .er e =>
            (match undoputcell s₄ a with
             | .ok s₅ => .er s₅ (.wrap "page alloc error" e)
             | .er e₁ => .er s₄ e₁
             | .pan m => .pan m)
        | .ok sp =>
            let s₅ := sp.1
            let idx := sp.2
            let wr : Res (List Nat) :=
              if fault = .fblobWrite then .er (.ioErr "page write error")
              else pagePut (s₅.disk.pageFiles.getD idx []) (s₅.cellAt a) val
                     s₅.opts.ZeroPadDeleted
            match wr with
            | .pan m => .pan m
            | .er e =>
                (match undoputcell s₅ a with
                 | .ok s₆ => .er s₆ (.wrap "put error" e)
                 | .er e₁ => .er s₅ e₁
                 | .pan m => .pan m)
            | .ok pageBytes =>
                let s₆ := { s₅ with disk := { s₅.disk with
                              pageFiles := s₅.disk.pageFiles.set idx pageBytes } }
                if fault = .fheaderUpdate then
                  (match undoputcell s₆ a with
                   | .ok s₇ => .er s₇ (.wrap "put error" (.ioErr "header seek error"))
                   | .er e₁ => .er s₆ e₁
                   | .pan m => .pan m)
                else
                  .ok (headerUse (headerUpdate s₆ a s₆.opts.PersistentHeader) a)

/-- `FlatFile.Put` (cells.go): empty-key check, then `put` (the mirror
forwarding is outside this model). -/
def ffPut (s : FF) (key val : List Nat) : StepRes :=
  if key.length = 0 then .er s .invalidKey
  else ffput s key val .fnone

/-- The blob-retrieval block of `FlatFile.get` (cells.go): serve a copy of
the cell's cache slot when non-nil, otherwise read the blob from its page
(`stream.Page` panics on an out-of-range page index) and verify the CRC. -/
def ffgetBlob (s : FF) (a : Nat) : Res (List Nat) :=
  let c := s.cellAt a
  match c.cache with
  | some cached =>
      if c.Used < 0 then .pan "runtime error: makeslice: len out of range"
      else .ok (cached.take c.Used.toNat ++
                List.replicate (c.Used.toNat - (cached.take c.Used.toNat).length) 0)
  | none =>
      match streamPageIdx s c with
      | none => .pan "runtime error: index out of range"
      | some idx =>
          match pageGet (s.disk.pageFiles.getD idx []) c with
          | .pan m => .pan m
          | .er e => .er (.wrap "get error" e)
          | .ok blob =>
              if s.opts.CRC ∧ c.CRC32 ≠ 0 ∧ crc32ieee blob ≠ c.CRC32 then
                .er .checksumFailed
              else .ok blob

/-- `FlatFile.get` (cells.go): look up the cell, retrieve the blob
(`ffgetBlob`); with `cache = true` (never passed by any caller) install
into Mem unless this is a utility instance or the cache is disabled. -/
def ffget (s : FF) (key : List Nat) (cache : Bool) : Res (List Nat × FF) :=
  match alookup s.keys key with
  | none => .er .keyNotFound
  | some a =>
      (ffgetBlob s a).bind fun blob =>
        if cache = false then .ok (blob, s)
        else if s.opts.utility then .ok (blob, s)
        else if s.opts.MaxCacheMemory ≤ 0 then .ok (blob, s)
        else
          let c := s.cellAt a
          let s₁ := if c.cache = none then s.setCell a { c with cache := some blob } else s
          .ok (blob, headerCache s₁ a blob s₁.opts.MaxCacheMemory)

/-- `FlatFile.Get` (cells.go): empty-key check, then `ff.get(key, false)` —
note the `false`: the public read path never asks `get` to cache. -/
def ffGet (s : FF) (key : List Nat) : Res (List Nat × FF) :=
  if key.length = 0 then .er .invalidKey
  else ffget s key false

/-- `FlatFile.delete` (cells.go): remove from `keys`, un-cache, trash into
the bin (before the state change, as in the source), clear `key`/`CRC32`,
set `StateDeleted`, and update the header. -/
def ffdelete (s : FF) (key : List Nat) : StepRes :=
  match alookup s.keys key with
  | none => .er s .keyNotFound
  | some a =>
      let s₁ := { s with keys := aerase s.keys key }
      let s₂ := headerUnCache s₁ a
      match binTrash s₂ a with
      | .pan m => .pan m
      | .er e => .er s₂ e
      | .ok s₃ =>
          let s₄ := s₃.setCell a
            { s₃.cellAt a with key := [], CRC32 := 0, CellState := .StateDeleted }
          .ok (headerUpdate s₄ a s₄.opts.PersistentHeader)

/-- `FlatFile.Delete` (cells.go): immutability and empty-key checks, then
`delete` (mirror forwarding outside this model). -/
def ffDelete (s : FF) (key : List Nat) : StepRes :=
  if s.opts.Immutable then .er s .immutableFile
  else if key.length = 0 then .er s .invalidKey
  else ffdelete s key

/-- `FlatFile.Len`: number of live keys. -/
def ffLen (s : FF) : Nat :=
  s.keys.length

/-- The replay loop of `header.load`: read records in file order and
`pot.Mask` each one (later records replace earlier ones of the same
`CellID`; `maxid` tracks the largest id).  Every record allocates a fresh
cell (a fresh heap slot). -/
def loadReplay (recs : List HRec) : List cell × List (Nat × Nat) × Nat :=
  recs.foldl
    (fun st r =>
      (st.1 ++ [r.toCell], nstore st.2.1 r.CellID st.1.length, max st.2.2 r.CellID))
    ([], [], 0)

/-- A fresh session state over disk `d` with the replayed pot. -/
def freshFF (d : Disk) (o : GoOptions) (heap : List cell)
    (potCells : List (Nat × Nat)) (maxid : Nat) : FF :=
  { heap := heap, potMaxid := maxid, potCells := potCells, binCells := [],
    binIds := [], memQueue := [], memKeys := [], memSize := 0, keys := [],
    dirty := [], lastKey := [], streamPages := 0, disk := d, opts := o }

/-- The post-replay walk of `header.load`: trash `StateDeleted` cells into
the bin (which may panic, see `binTrash`), register every other cell in
`keys`/`lastKey`, and track the maximum page index. -/
def headerWalk (s : FF) (entries : List (Nat × Nat)) (maxpage : Int) :
    Res (FF × Int) :=
  match entries with
  | [] => .ok (s, maxpage)
  | e :: rest =>
      let c := s.cellAt e.2
      let step : Res FF :=
        if c.CellState = .StateDeleted then binTrash s e.2
        else .ok { s with keys := astore s.keys c.key e.2, lastKey := c.key }
      step.bind fun s₁ =>
        headerWalk s₁ rest (if maxpage < c.PageIndex then c.PageIndex else maxpage)

/-- `header.Open` + `header.load` (header.go): open/create the header file,
write the 4-byte magic and rewind (unconditionally, also over an existing
file), read the magic back and verify it, replay the records into the pot,
walk the pot into bin/keys, and — with `compact_header` — truncate the file
and rewrite one record per pot cell.  Returns the maximum page index. -/
def headerOpen (d : Disk) (o : GoOptions) : Res (FF × Int) :=
  let d₁ := { d with hdrBytes := magicBytes }
  if d₁.hdrBytes.take 4 ≠ magicBytes then .er (.ioErr "invalid header")
  else
    let rep := loadReplay d₁.records
    let s₀ := freshFF d₁ o rep.1 rep.2.1 rep.2.2
    (headerWalk s₀ s₀.potCells 0).bind fun sm =>
      let s₁ := sm.1
      if o.CompactHeader then
        let canon := s₁.potCells.map (fun p => cellRecord (s₁.cellAt p.2).key (s₁.cellAt p.2))
        .ok ({ s₁ with disk := { s₁.disk with records := canon } }, sm.2)
      else .ok (s₁, sm.2)

/-- `FlatFile.load` (cells.go): open and load the header; open the stream
pages up to `maxpage+1` — but only when there is at least one live key
(`ff.Len() > 0`), faithfully to the source.  The intents subtree is outside
this model (theorems assume `UseIntents = false`). -/
def ffload (d : Disk) (o : GoOptions) : Res FF :=
  match headerOpen d o with
  | .pan m => .pan m
  | .er e => .er (.wrap "header open error" e)
  | .ok sm =>
      if 0 < ffLen sm.1 then
        match streamOpen sm.1 (sm.2 + 1) with
        | .pan m => .pan m
        | .er e => .er (.wrap "stream open error" e)
        | .ok s₁ => .ok s₁
      else .ok sm.1

/-- `FlatFile.Close` (cells.go), restricted to its effect on the disk:
`header.Close` flushes the dirty cells; stream/options/mirror/intents
closing does not change header or page contents. -/
def ffclose (s : FF) : Disk :=
  (headerFlush s).disk

/-- `FlatFile.Reopen` (cells.go): close, then load again. -/
def ffreopen (s : FF) : Res FF :=
  ffload (ffclose s) s.opts

/-- `FlatFile.restoreFromIntents` (cells.go): walk every key of the intents
store (abstracted to its key/value pairs), re-apply it to the outer store
with the inner `put`, then clear the intents store.  A failing `put` aborts
the restore with a wrapped error — and `Open` then fails. -/
def restoreFromIntents (s : FF) (intents : List (List Nat × List Nat)) : StepRes :=
  match intents with
  | [] => .ok s
  | kv :: rest =>
      match ffput s kv.1 kv.2 .fnone with
      | .ok s₁ => restoreFromIntents s₁ rest
      | .er s₁ e => .er s₁ (.wrap "intent restore put error" e)
      | .pan m => .pan m

/-- The error of a failed step, if any. -/
def StepRes.errOf : StepRes → Option GoErr
  | .er _ e => some e
  | _ => none

/-- Options used by the concrete scenarios: defaults, except a small page
size (the default 4 GB page would be preallocated in full by the model) and
no header compaction. -/
def testOpts : GoOptions :=
  { NewOptions with CompactHeader := false, MaxPageSize := 64 }

/-- A throwaway fallback state for extracting `ok` results of concrete runs
(never reached in the proofs below). -/
def dfltFF : FF :=
  freshFF emptyDisk testOpts [] [] 0

/-- Fresh store over an empty directory with `testOpts`. -/
def freshS : FF :=
  (ffload emptyDisk testOpts).getD dfltFF

/-- `freshS` after `Put([107], [97])`. -/
def c10s1 : FF := (ffPut freshS [107] [97]).getD dfltFF

/-- `c10s1` after `Delete([107])`. -/
def c10s2 : FF := (ffDelete c10s1 [107]).getD dfltFF

/-- `c10s2` after `Reopen()`: no live keys, so `FlatFile.load` skips
`stream.Open` and the session has zero open pages while the bin holds the
deleted cell. -/
def c10s3 : FF := (ffreopen c10s2).getD dfltFF

/-- `freshS` after `Put([5], [1])`: key `[5]` is live. -/
def c2s1 : FF := (ffPut freshS [5] [1]).getD dfltFF

/-- C3 pipeline: two puts of sizes 3 and 5, then both keys deleted (the
larger first, so both `Trash` calls stay in the working range of the bin),
leaving the bin holding cells of allocations {3, 5}. -/
def c3s1 : FF := (ffPut freshS [1] [9, 9, 9]).getD dfltFF

/-- See `c3s1`. -/
def c3s2 : FF := (ffPut c3s1 [2] [8, 8, 8, 8, 8]).getD dfltFF

/-- See `c3s1`. -/
def c3s3 : FF := (ffDelete c3s2 [2]).getD dfltFF

/-- See `c3s1`: bin now holds allocations {3, 5}. -/
def c3s4 : FF := (ffDelete c3s3 [1]).getD dfltFF

/-- A deleted cell of allocation 3 (cell id 1). -/
def c5cellSmall : cell :=
  { zeroCell with CellID := 1, Allocated := 3, CellState := .StateDeleted }

/-- A deleted cell of allocation 5 (cell id 2). -/
def c5cellBig : cell :=
  { zeroCell with CellID := 2, Allocated := 5, CellState := .StateDeleted }

/-- A store whose bin is empty, with two deleted cells on the heap. -/
def c5sEmpty : FF :=
  { dfltFF with heap := [c5cellSmall, c5cellBig] }

/-- A store whose bin holds only the allocation-3 cell. -/
def c5sOne : FF :=
  { dfltFF with heap := [c5cellSmall, c5cellBig],
                binCells := [0], binIds := [(1, 0)] }

/-- An existing header file whose first four bytes are not the magic. -/
def c7BadDisk : Disk :=
  { hdrBytes := [0xDE, 0xAD, 0xBE, 0xEF], records := [], pageFiles := [] }

/-- `freshS` after `Put([5], [1,2])`: key `[5]` live and uncached, options
with the cache enabled (`MaxCacheMemory > 0`) on a non-utility store. -/
def c8s1 : FF := (ffPut freshS [5] [1, 2]).getD dfltFF

/-- State component of a `header.Select` result (fallback never reached). -/
def selState (r : Res (FF × Nat)) : FF :=
  match r with
  | .ok sa => sa.1
  | _ => dfltFF

/-- The selected cell of a `header.Select` result. -/
def selCell (r : Res (FF × Nat)) : cell :=
  match r with
  | .ok sa => sa.1.cellAt sa.2
  | _ => zeroCell

/-- A deleted cell for the best-fit scenario (id `i`, allocation `alloc`). -/
def c4cell (i : Nat) (alloc : Int) : cell :=
  { zeroCell with CellID := i, Allocated := alloc, CellState := .StateDeleted }

/-- The bin state after deleting cells with allocations
{1,2,4,8,16,32,64,128,256,512} (sorted ascending, as the bin maintains). -/
def c4s0 : FF :=
  { dfltFF with
    heap := [c4cell 0 1, c4cell 1 2, c4cell 2 4, c4cell 3 8, c4cell 4 16,
             c4cell 5 32, c4cell 6 64, c4cell 7 128, c4cell 8 256, c4cell 9 512],
    binCells := [0, 1, 2, 3, 4, 5, 6, 7, 8, 9],
    binIds := [(0, 0), (1, 1), (2, 2), (3, 3), (4, 4), (5, 5), (6, 6),
               (7, 7), (8, 8), (9, 9)] }

/-- Successive `header.Select(reuse=true, size)` steps of the best-fit
scenario: 127, 33, 4, 1, 512, 31, 16. -/
def c4r1 : Res (FF × Nat) := headerSelect c4s0 true 127

/-- See `c4r1`. -/
def c4r2 : Res (FF × Nat) := headerSelect (selState c4r1) true 33

/-- See `c4r1`. -/
def c4r3 : Res (FF × Nat) := headerSelect (selState c4r2) true 4

/-- See `c4r1`. -/
def c4r4 : Res (FF × Nat) := headerSelect (selState c4r3) true 1

/-- See `c4r1`. -/
def c4r5 : Res (FF × Nat) := headerSelect (selState c4r4) true 512

/-- See `c4r1`. -/
def c4r6 : Res (FF × Nat) := headerSelect (selState c4r5) true 31

/-- See `c4r1`. -/
def c4r7 : Res (FF × Nat) := headerSelect (selState c4r6) true 16

/-- The bin sequence is sorted ascending by `Allocated`. -/
def sortedBin (s : FF) : Prop :=
  List.Pairwise (fun a b => (s.cellAt a).Allocated ≤ (s.cellAt b).Allocated)
    s.binCells

instance (s : FF) : Decidable (sortedBin s) := by
  unfold sortedBin
  infer_instance

/-- Push a sequence of cells into the cache (the quiescence points of the
cache-bound property are the states between completed pushes). -/
def pushMany (s : FF) (addrs : List Nat) (maxalloc : Int) : FF :=
  addrs.foldl (fun t a => memPush t a maxalloc) s

/-- Internal consistency of the Mem cache: the running total is the sum of
`Used` over the queue, queue members have `Used` within `[0, U]`, the key
lookup points into the queue at a cell carrying that key, and lookup keys
are unique (it models a Go map). -/
def memInv (s : FF) (U : Int) : Prop :=
  s.memSize = (s.memQueue.map (fun a => (s.cellAt a).Used)).sum ∧
  (∀ a ∈ s.memQueue, 0 ≤ (s.cellAt a).Used ∧ (s.cellAt a).Used ≤ U) ∧
  (∀ p ∈ s.memKeys, p.2 ∈ s.memQueue ∧ (s.cellAt p.2).key = p.1) ∧
  (s.memKeys.map Prod.fst).Nodup

/-- A cacheable cell of `Used = 9` with key `[k]`. -/
def c6cell (k : Nat) : cell :=
  { zeroCell with CellID := k, Used := 9, key := [k], cache := some [0] }

/-- Three `Used = 9` cells with distinct keys, empty cache, budget 10. -/
def c6s0 : FF :=
  { dfltFF with heap := [c6cell 1, c6cell 2, c6cell 3] }

/-- A pot whose single (last) cell sits on page 1: cell id 1, offset 10,
allocation 4. -/
def c9prev : cell :=
  { zeroCell with CellID := 1, PageIndex := 1, Offset := 10, Allocated := 4,
                  Used := 4 }

/-- See `c9prev`. -/
def c9s : FF :=
  { dfltFF with heap := [c9prev], potCells := [(1, 0)], potMaxid := 1 }

/-- The address carried by the last pot entry whose cell is live and keyed
`K` (the cell the post-replay walk leaves in `keys[K]`). -/
def lastLiveK (s₀ : FF) (entries : List (Nat × Nat)) (K : List Nat) :
    Option Nat :=
  match entries with
  | [] => none
  | e :: rest =>
      match lastLiveK s₀ rest K with
      | some x => some x
      | none =>
          if (s₀.cellAt e.2).CellState ≠ .StateDeleted ∧ (s₀.cellAt e.2).key = K
          then some e.2
          else none

/-- The new cell allocated by `pot.New` over a non-empty pot. -/
def potNewCell (s : FF) (la : Nat) : cell :=
  { CellID := s.potMaxid + 1, PageIndex := 0,
    Offset := (s.cellAt la).Offset + (s.cellAt la).Allocated,
    Allocated := 0, Used := 0, CellState := .StateNormal, CRC32 := 0,
    cache := none, key := [] }

/-- The record-relevant fields of a cell (everything except the cache
slot), used to state that an operation only touches caches. -/
def cpersist (c : cell) : HRec :=
  cellRecord c.key c

/-- C2, code_bug.  With key `[5]` live in the outer store (value `[1]`,
exactly the state left by a crash after the inner put of a modify committed
but before the intent was deleted), replaying an intents entry for `[5]`
does not overwrite: `restoreFromIntents` re-applies it through the inner
`put`, which fails `ErrDuplicateKey`, so the restore — and hence `Open` —
fails instead of recovering. -/
theorem c2_intent_replay_fails_on_live_key :
    (ffPut freshS [5] [1]).isOk = true ∧
    (restoreFromIntents c2s1 [([5], [2])]).errOf =
      some (.wrap "intent restore put error" .duplicateKey) := by
  refine ⟨by decide, by decide⟩

/-- C3, code_bug.  A put of size 4 on a store whose bin holds allocations
{3, 5} selects the allocation-5 cell (Reused); when the blob write then
fails, `undoputcell` tries to put the cell back with `Bin.Trash`, whose
insertion index `sort.Search` returns `len(b.cells)` (5 is larger than
every remaining binned allocation) and the `b.cells[i]` access panics —
the rollback crashes instead of restoring the cell into the bin. -/
theorem c3_rollback_panics_for_large_reused_cell :
    (ffPut freshS [1] [9, 9, 9]).isOk = true ∧
    (ffPut c3s1 [2] [8, 8, 8, 8, 8]).isOk = true ∧
    (ffDelete c3s2 [2]).isOk = true ∧
    (ffDelete c3s3 [1]).isOk = true ∧
    (ffput c3s4 [3] [7, 7, 7, 7] .fblobWrite).isPan = true := by
  refine ⟨by decide, by decide, by decide, by decide, by decide⟩

/-- C5, code_bug.  `bin.Trash` violates the claim twice: trashing into an
empty bin appends the cell but never records it in the `cellids` index, so
a later `Remove` by cell id fails to find it; and trashing a cell whose
`Allocated` is strictly greater than that of every binned cell makes
`sort.Search` return `len(b.cells)`, so the `b.cells[i]` access panics. -/
theorem c5_trash_bugs :
    (binTrash c5sEmpty 0).isOk = true ∧
    ((binTrash c5sEmpty 0).getD dfltFF).binIds = [] ∧
    (binRemove ((binTrash c5sEmpty 0).getD dfltFF) 0).2 = false ∧
    (binTrash c5sOne 1).isPan = true := by
  refine ⟨by decide, by decide, by decide, by decide⟩

/-- C7, code_bug.  Opening an existing header file whose first four bytes
are not the magic `F1 47 F1 13` succeeds: `header.Open` writes the magic
unconditionally before `header.load` verifies it, so the wrong bytes are
silently overwritten and the verification (now dead code) passes. -/
theorem c7_bad_magic_accepted_and_overwritten :
    c7BadDisk.hdrBytes ≠ magicBytes ∧
    (ffload c7BadDisk NewOptions).isOk = true ∧
    ((ffload c7BadDisk NewOptions).getD dfltFF).disk.hdrBytes = magicBytes := by
  refine ⟨by decide, by decide, by decide⟩

/-- Looking up the key just stored. -/
theorem nlookup_nstore_self {ν : Type} (l : List (Nat × ν)) (k : Nat) (v : ν) :
    nlookup (nstore l k v) k = some v := by
  induction l with
  | nil => simp [nstore, nlookup]
  | cons p rest ih =>
      by_cases h : p.1 = k
      · simp [nstore, nlookup, h]
      · simp [nstore, nlookup, h, ih]

/-- Storing under one key leaves other lookups unchanged. -/
theorem nlookup_nstore_ne {ν : Type} (l : List (Nat × ν)) (k k' : Nat) (v : ν)
    (h : k ≠ k') : nlookup (nstore l k v) k' = nlookup l k' := by
  induction l with
  | nil => simp [nstore, nlookup, h]
  | cons p rest ih =>
      by_cases hp : p.1 = k
      · simp [nstore, nlookup, hp, h, ih]
      · simp only [nstore, nlookup, if_neg hp]
        by_cases hp' : p.1 = k'
        · simp [nlookup, hp']
        · simp [nlookup, hp', ih]

/-- C9, corrected.  `pot.New` on a non-empty pot returns a cell with state
`StateNormal`, `cell_id = max_id + 1` and
`offset = last.Offset + last.Allocated` — but its `page_index` is the zero
value 0, not the previous last cell's (`pot.New` never assigns
`PageIndex`; `stream.GetCellPage` sets it later). -/
theorem c9_pot_new_amended (s : FF) (la : Nat)
    (h1 : 0 < s.potMaxid)
    (h2 : nlookup s.potCells s.potMaxid = some la) :
    ∃ s', potNew s = .ok (s', s.heap.length) ∧
      s'.cellAt s.heap.length = potNewCell s la ∧
      s'.potMaxid = s.potMaxid + 1 ∧
      nlookup s'.potCells (s.potMaxid + 1) = some s.heap.length := by
  have hrun : potNew s =
      .ok ({ s with heap := s.heap ++ [potNewCell s la],
                    potMaxid := s.potMaxid + 1,
                    potCells := nstore s.potCells (s.potMaxid + 1) s.heap.length },
           s.heap.length) := by
    simp [potNew, h1, h2, cell.BlobEndPos, potNewCell, zeroCell]
  refine ⟨_, hrun, ?_, rfl, ?_⟩
  · simp [FF.cellAt, List.getD, List.getElem?_concat_length]
  · exact nlookup_nstore_self _ _ _

/-- C9, counterexample.  On a pot whose last cell sits on page 1, `pot.New`
returns a cell with `page_index = 0`, not the previous last cell's page
index 1 as the claim states (offset and cell id are as claimed). -/
theorem c9_counterexample :
    (c9s.cellAt 0).PageIndex = 1 ∧
    (potNew c9s).isOk = true ∧
    (selCell (potNew c9s)).PageIndex = 0 ∧
    (selCell (potNew c9s)).Offset = 14 ∧
    (selCell (potNew c9s)).CellID = 2 ∧
    (selCell (potNew c9s)).CellState = .StateNormal := by
  refine ⟨by decide, by decide, by decide, by decide, by decide, by decide⟩

/-- C9, witness: the amended statement applied to the concrete pot `c9s`. -/
theorem c9_pot_new_amended_witness :
    ∃ s', potNew c9s = .ok (s', c9s.heap.length) ∧
      s'.cellAt c9s.heap.length = potNewCell c9s 0 ∧
      s'.potMaxid = c9s.potMaxid + 1 ∧
      nlookup s'.potCells (c9s.potMaxid + 1) = some c9s.heap.length :=
  c9_pot_new_amended c9s 0 (by decide) (by decide)

/-- C8, corrected.  The public `Get` path never installs anything: it calls
`ff.get(key, false)`, and with `cache = false` the internal `get` returns
before the Mem-install step, leaving the state exactly unchanged.  (The
install code is reachable only with `cache = true`, which no caller —
`Get`, `Walk`, `Modify`, `restoreFromIntents` — ever passes.) -/
theorem c8_get_installs_nothing_amended (s : FF) (key b : List Nat) (s' : FF)
    (h : ffGet s key = .ok (b, s')) : s' = s := by
  unfold ffGet at h
  split at h
  · exact absurd h (by simp)
  · unfold ffget at h
    split at h
    · exact absurd h (by simp)
    · rename_i a halk
      rcases hb : ffgetBlob s a with blob | e | m <;> rw [hb] at h <;>
        simp only [Res.bind] at h
      · simp only [Res.ok.injEq, Prod.mk.injEq, reduceIte] at h
        exact h.2.symm
      · cases h
      · cases h

/-- C8, counterexample.  On a store with the cache enabled
(`MaxCacheMemory > 0`, not a utility instance) and `[5]` live and uncached,
a successful public `Get` leaves the cell's cache slot empty and the Mem
queue empty — the blob is not installed into Mem as the claim states. -/
theorem c8_counterexample :
    (ffPut freshS [5] [1, 2]).isOk = true ∧
    0 < c8s1.opts.MaxCacheMemory ∧
    c8s1.opts.utility = false ∧
    ffGet c8s1 [5] = .ok ([1, 2], c8s1) ∧
    (c8s1.cellAt ((alookup c8s1.keys [5]).getD 0)).cache = none ∧
    c8s1.memQueue = [] := by
  refine ⟨by decide, by decide, by decide, by decide, by decide, by decide⟩

/-- C8, witness: the amended statement applied to the concrete store
`c8s1`. -/
theorem c8_get_installs_nothing_amended_witness :
    ffGet c8s1 [5] = .ok ([1, 2], c8s1) ∧ c8s1 = c8s1 :=
  ⟨by decide, c8_get_installs_nothing_amended c8s1 [5] [1, 2] c8s1 (by decide)⟩

/-- Correctness of the `sort.Search` loop: with enough fuel and an upward
closed predicate on `[i, j)`, the result is the least index of `[i, j]` at
which the predicate holds. -/
theorem searchLoop_correct (f : Nat → Bool) :
    ∀ (fuel i j : Nat), j - i ≤ fuel → i ≤ j →
      (∀ a b, i ≤ a → a ≤ b → b < j → f a = true → f b = true) →
      (i ≤ searchLoop f fuel i j ∧ searchLoop f fuel i j ≤ j) ∧
      (∀ k, i ≤ k → k < searchLoop f fuel i j → f k = false) ∧
      (searchLoop f fuel i j < j → f (searchLoop f fuel i j) = true) := by
  intro fuel
  induction fuel with
  | zero =>
      intro i j hfuel hij _
      have hji : i = j := by omega
      subst hji
      simp [searchLoop]
      omega
  | succ fuel ih =>
      intro i j hfuel hij hmono
      by_cases hlt : i < j
      · have hm1 : i ≤ (i + j) / 2 := by omega
        have hm2 : (i + j) / 2 < j := by omega
        by_cases hf : f ((i + j) / 2) = true
        · have hrec : searchLoop f (fuel + 1) i j = searchLoop f fuel i ((i + j) / 2) := by
            simp [searchLoop, hlt, hf]
          rw [hrec]
          have := ih i ((i + j) / 2) (by omega) (by omega)
            (fun a b ha hab hb hfa => hmono a b ha hab (by omega) hfa)
          refine ⟨⟨this.1.1, by omega⟩, this.2.1, ?_⟩
          intro hr
          rcases Nat.lt_or_ge (searchLoop f fuel i ((i + j) / 2)) ((i + j) / 2) with hc | hc
          · exact this.2.2 hc
          · have : searchLoop f fuel i ((i + j) / 2) = (i + j) / 2 := by
              omega
            rw [this]
            exact hf
        · have hrec : searchLoop f (fuel + 1) i j = searchLoop f fuel ((i + j) / 2 + 1) j := by
            simp [searchLoop, hlt, hf]
          rw [hrec]
          have := ih ((i + j) / 2 + 1) j (by omega) (by omega)
            (fun a b ha hab hb hfa => hmono a b (by omega) hab hb hfa)
          refine ⟨⟨by omega, this.1.2⟩, ?_, this.2.2⟩
          intro k hk hk'
          rcases Nat.lt_or_ge k ((i + j) / 2 + 1) with hc | hc
          · by_cases hfk : f k = true
            · exact absurd (hmono k ((i + j) / 2) hk (by omega) (by omega) hfk)
                (by simp [hf])
            · simp at hfk
              exact hfk
          · exact this.2.1 k hc hk'
      · have hji : i = j := by omega
        subst hji
        simp [searchLoop]
        omega

/-- Evaluating the bin search closure at an in-range index. -/
theorem binSearchPred_some (s : FF) (m : Int) (i v : Nat)
    (h : s.binCells.get? i = some v) :
    binSearchPred s m i = decide (m ≤ (s.cellAt v).Allocated) := by
  unfold binSearchPred
  rw [h]

/-- On a sorted bin, the `sort.Search` closure over `Allocated` is upward
closed. -/
theorem binPred_mono (s : FF) (m : Int) (hs : sortedBin s) :
    ∀ a b, a ≤ b → binSearchPred s m a = true → binSearchPred s m b = true := by
  intro a b hab hfa
  unfold binSearchPred at hfa ⊢
  rcases hb : s.binCells.get? b with _ | vb
  · simp
  · have hblt : b < s.binCells.length := by
      by_contra hc
      rw [List.get?_eq_none.mpr (by omega)] at hb
      cases hb
    have halt : a < s.binCells.length := by omega
    rw [List.get?_eq_get halt] at hfa
    have hfa' : decide (m ≤ (s.cellAt (s.binCells.get ⟨a, halt⟩)).Allocated) = true := hfa
    show decide (m ≤ (s.cellAt vb).Allocated) = true
    have hvb : vb = s.binCells.get ⟨b, hblt⟩ := by
      rw [List.get?_eq_get hblt] at hb
      exact (Option.some.injEq _ _ ▸ hb).symm
    simp only [decide_eq_true_eq] at hfa' ⊢
    rcases Nat.lt_or_ge a b with hlt | hge
    · have := (List.pairwise_iff_get.mp hs) ⟨a, halt⟩ ⟨b, hblt⟩ hlt
      subst hvb
      exact le_trans hfa' this
    · have : a = b := by omega
      subst this
      subst hvb
      exact hfa'

/-- C4, confirmed.  General best-fit property of `bin.Recycle` on a sorted
bin — a returned cell is the smallest binned cell whose `Allocated`
satisfies `minsize`, removed from both the sequence and the `cellids`
index; `none` models the sentinel `&cell{}` (whose `Allocated` is 0) and is
returned exactly when no binned cell is large enough — together with the
concrete scenario: after binning allocations {1,2,4,8,16,32,64,128,256,512},
`Select` serves 127 from the 128 cell, 33 from 64, 4 from 4, 1 from 1,
512 from 512, 31 from 32 and 16 from 16, each as a `StateReused` cell with
`Used` set to the requested size. -/
theorem c4_recycle_best_fit :
    (∀ (s : FF) (m : Int) (s' : FF) (a : Nat),
        sortedBin s → binRecycle s m = (s', some a) →
        a ∈ s.binCells ∧ m ≤ (s.cellAt a).Allocated ∧
        (∀ b ∈ s.binCells, m ≤ (s.cellAt b).Allocated →
            (s.cellAt a).Allocated ≤ (s.cellAt b).Allocated) ∧
        (∃ i, s.binCells.get? i = some a ∧
              s'.binCells = s.binCells.eraseIdx i ∧
              s'.binIds = nerase s.binIds (s.cellAt a).CellID)) ∧
    (∀ (s : FF) (m : Int) (s' : FF),
        sortedBin s → binRecycle s m = (s', none) →
        s' = s ∧ ∀ b ∈ s.binCells, (s.cellAt b).Allocated < m) ∧
    ((selCell c4r1).Allocated = 128 ∧ (selCell c4r1).CellState = .StateReused ∧
     (selCell c4r1).Used = 127 ∧
     (selCell c4r2).Allocated = 64 ∧ (selCell c4r2).Used = 33 ∧
     (selCell c4r3).Allocated = 4 ∧ (selCell c4r3).Used = 4 ∧
     (selCell c4r4).Allocated = 1 ∧ (selCell c4r4).Used = 1 ∧
     (selCell c4r5).Allocated = 512 ∧ (selCell c4r5).Used = 512 ∧
     (selCell c4r6).Allocated = 32 ∧ (selCell c4r6).Used = 31 ∧
     (selCell c4r7).Allocated = 16 ∧ (selCell c4r7).Used = 16) := by
  have hsearch : ∀ (s : FF) (m : Int), sortedBin s →
      (sortSearch s.binCells.length (binSearchPred s m) ≤ s.binCells.length) ∧
      (∀ k, k < sortSearch s.binCells.length (binSearchPred s m) →
          binSearchPred s m k = false) ∧
      (sortSearch s.binCells.length (binSearchPred s m) < s.binCells.length →
          binSearchPred s m (sortSearch s.binCells.length (binSearchPred s m)) = true) := by
    intro s m hs
    have := searchLoop_correct (binSearchPred s m) s.binCells.length 0
      s.binCells.length (by omega) (by omega)
      (fun a b _ hab _ hfa => binPred_mono s m hs a b hab hfa)
    exact ⟨this.1.2, fun k hk => this.2.1 k (by omega) hk, this.2.2⟩
  refine ⟨?_, ?_, ?_⟩
  · intro s m s' a hs hrec
    obtain ⟨hle, hbelow, hat⟩ := hsearch s m hs
    simp only [binRecycle] at hrec
    split at hrec
    · rename_i a₀ hget
      split at hrec
      · rename_i halloc
        obtain ⟨heq1, heq2⟩ := Prod.mk.injEq _ _ _ _ ▸ hrec
        obtain rfl : a = a₀ := (Option.some.injEq _ _ ▸ heq2).symm
        refine ⟨List.get?_mem hget, halloc, ?_, ?_⟩
        · intro b hb hballoc
          obtain ⟨⟨k, hk⟩, hbk⟩ := List.mem_iff_get.mp hb
          have hi : sortSearch s.binCells.length (binSearchPred s m) < s.binCells.length := by
            by_contra hc
            rw [List.get?_eq_none.mpr (by omega)] at hget
            cases hget
          have hpk : binSearchPred s m k = true := by
            rw [binSearchPred_some s m k b (by rw [List.get?_eq_get hk, hbk])]
            simp [hballoc]
          have hki : sortSearch s.binCells.length (binSearchPred s m) ≤ k := by
            by_contra hc
            rw [hbelow k (by omega)] at hpk
            cases hpk
          have ha : a = s.binCells.get ⟨_, hi⟩ := by
            rw [List.get?_eq_get hi] at hget
            exact (Option.some.injEq _ _ ▸ hget).symm
          rcases Nat.lt_or_ge (sortSearch s.binCells.length (binSearchPred s m)) k with hlt | hge
          · have := (List.pairwise_iff_get.mp hs) ⟨_, hi⟩ ⟨k, hk⟩ hlt
            rw [ha, ← hbk]
            exact this
          · have : k = sortSearch s.binCells.length (binSearchPred s m) := by omega
            subst this
            rw [ha, ← hbk]
        · exact ⟨_, hget, (congrArg FF.binCells heq1).symm ▸ rfl,
            (congrArg FF.binIds heq1).symm ▸ rfl⟩
      · cases hrec
    · cases hrec
  · intro s m s' hs hrec
    obtain ⟨hle, hbelow, hat⟩ := hsearch s m hs
    simp only [binRecycle] at hrec
    split at hrec
    · rename_i a₀ hget
      split at hrec
      · cases hrec
      · rename_i halloc
        obtain ⟨heq1, _⟩ := Prod.mk.injEq _ _ _ _ ▸ hrec
        have hi : sortSearch s.binCells.length (binSearchPred s m) < s.binCells.length := by
          by_contra hc
          rw [List.get?_eq_none.mpr (by omega)] at hget
          cases hget
        have h2 := hat hi
        rw [binSearchPred_some s m _ a₀ hget] at h2
        simp only [decide_eq_true_eq] at h2
        exact absurd h2 halloc
    · rename_i hget
      obtain ⟨heq1, _⟩ := Prod.mk.injEq _ _ _ _ ▸ hrec
      have hi : s.binCells.length ≤ sortSearch s.binCells.length (binSearchPred s m) := by
        exact List.get?_eq_none.mp hget
      refine ⟨heq1.symm, ?_⟩
      intro b hb
      obtain ⟨⟨k, hk⟩, hbk⟩ := List.mem_iff_get.mp hb
      have h3 := hbelow k (by omega)
      rw [binSearchPred_some s m k b (by rw [List.get?_eq_get hk, hbk])] at h3
      simp only [decide_eq_false_iff_not, not_le] at h3
      exact h3
  · refine ⟨by decide, by decide, by decide, by decide, by decide, by decide,
      by decide, by decide, by decide, by decide, by decide, by decide,
      by decide, by decide, by decide⟩

/-- Erasure produces a sublist. -/
theorem aerase_sublist {ν : Type} (l : List (List Nat × ν)) (k : List Nat) :
    (aerase l k).Sublist l := by
  induction l with
  | nil => simp [aerase]
  | cons q rest ih =>
      unfold aerase
      by_cases h : q.1 = k
      · simp only [h, if_pos rfl]
        exact List.sublist_cons_self _ _
      · simp only [if_neg h]
        exact List.Sublist.cons₂ _ ih

/-- Members of an erasure are members. -/
theorem mem_of_mem_aerase {ν : Type} {l : List (List Nat × ν)} {k : List Nat}
    {p : List Nat × ν} (h : p ∈ aerase l k) : p ∈ l :=
  (aerase_sublist l k).mem h

/-- With unique keys, no survivor of an erasure carries the erased key. -/
theorem not_key_mem_aerase {ν : Type} {l : List (List Nat × ν)} {k : List Nat}
    {p : List Nat × ν} (hn : (l.map Prod.fst).Nodup) (hp : p ∈ aerase l k) :
    p.1 ≠ k := by
  induction l with
  | nil => simp [aerase] at hp
  | cons q rest ih =>
      unfold aerase at hp
      simp only [List.map_cons, List.nodup_cons] at hn
      by_cases h : q.1 = k
      · rw [if_pos h] at hp
        intro hk
        exact hn.1 (h ▸ hk ▸ List.mem_map_of_mem Prod.fst hp)
      · rw [if_neg h] at hp
        rcases List.mem_cons.mp hp with rfl | hp'
        · exact h
        · exact ih hn.2 hp'

/-- A lookup miss means no entry carries the key. -/
theorem alookup_eq_none_iff {ν : Type} (l : List (List Nat × ν)) (k : List Nat) :
    alookup l k = none ↔ ∀ p ∈ l, p.1 ≠ k := by
  induction l with
  | nil => simp [alookup]
  | cons q rest ih =>
      unfold alookup
      by_cases h : q.1 = k
      · simp [h]
      · simp [h, ih]

/-- Storing a missing key appends the entry. -/
theorem astore_of_lookup_none {ν : Type} (l : List (List Nat × ν))
    (k : List Nat) (v : ν) (h : alookup l k = none) :
    astore l k v = l ++ [(k, v)] := by
  induction l with
  | nil => simp [astore]
  | cons q rest ih =>
      unfold astore
      unfold alookup at h
      by_cases hq : q.1 = k
      · rw [if_pos hq] at h
        cases h
      · rw [if_neg hq] at h
        simp [hq, ih h]

/-- Writing through a pointer: reads at other addresses (or out-of-range
writes) are unchanged; an in-range read at the written address yields the
written cell. -/
theorem cellAt_setCell (s : FF) (a : Nat) (c : cell) (b : Nat) :
    (s.setCell a c).cellAt b =
      if b = a ∧ a < s.heap.length then c else s.cellAt b := by
  unfold FF.setCell FF.cellAt
  by_cases hb : b = a
  · subst hb
    by_cases hl : b < s.heap.length
    · simp [List.getD, List.getElem?_set_self, hl]
    · simp only [hl, and_false, if_false]
      rw [List.set_eq_of_length_le (by omega)]
  · simp only [hb, false_and, if_false]
    simp [List.getD, List.getElem?_set_ne (by omega : a ≠ b)]

/-- Pointwise-equal weights give equal sums. -/
theorem sum_map_eq {q : List Nat} {f g : Nat → Int}
    (h : ∀ a ∈ q, f a = g a) : (q.map f).sum = (q.map g).sum := by
  induction q with
  | nil => rfl
  | cons x rest ih =>
      simp only [List.map_cons, List.sum_cons]
      rw [h x (List.mem_cons_self x rest), ih (fun a ha => h a (List.mem_cons_of_mem x ha))]

/-- Unfolding `memEvictGo` on an empty queue. -/
theorem memEvictGo_nil (cU m : Int) (fuel : Nat) (s : FF)
    (hq : s.memQueue = []) : memEvictGo cU m (fuel + 1) s = s := by
  unfold memEvictGo
  rw [hq]

/-- Unfolding one `memEvictGo` step on a non-empty queue. -/
theorem memEvictGo_cons (cU m : Int) (fuel : Nat) (s : FF) (f : Nat)
    (rest : List Nat) (hq : s.memQueue = f :: rest) :
    memEvictGo cU m (fuel + 1) s =
      if s.memSize - cU < m then s
      else memEvictGo cU m fuel
        { s with memQueue := rest,
                 memKeys := aerase s.memKeys (s.cellAt f).key,
                 memSize := s.memSize - (s.cellAt f).Used,
                 heap := s.heap.set f { s.cellAt f with cache := none } } := by
  have h0 : memEvictGo cU m (fuel + 1) s =
      match s.memQueue with
      | [] => s
      | f :: rest =>
          if s.memSize - cU < m then s
          else
            let fc := s.cellAt f
            memEvictGo cU m fuel
              { s with memQueue := rest,
                       memKeys := aerase s.memKeys fc.key,
                       memSize := s.memSize - fc.Used,
                       heap := s.heap.set f { fc with cache := none } } := rfl
  rw [h0, hq]

/-- What the eviction loop of `mem.Push` does: it preserves the Mem
invariant, only clears cache slots on the heap, only touches the mem
fields, and — given enough fuel, which `memEvict` provides — stops only
with an empty queue or with `size - cUsed < maxalloc`. -/
theorem memEvictGo_spec (cU m : Int) :
    ∀ (fuel : Nat) (s : FF) (U : Int), memInv s U →
      memInv (memEvictGo cU m fuel s) U ∧
      (∀ b, cpersist ((memEvictGo cU m fuel s).cellAt b) = cpersist (s.cellAt b)) ∧
      (memEvictGo cU m fuel s).heap.length = s.heap.length ∧
      (memEvictGo cU m fuel s).keys = s.keys ∧
      (memEvictGo cU m fuel s).disk = s.disk ∧
      (memEvictGo cU m fuel s).streamPages = s.streamPages ∧
      (memEvictGo cU m fuel s).binCells = s.binCells ∧
      (memEvictGo cU m fuel s).binIds = s.binIds ∧
      (memEvictGo cU m fuel s).potCells = s.potCells ∧
      (memEvictGo cU m fuel s).potMaxid = s.potMaxid ∧
      (memEvictGo cU m fuel s).dirty = s.dirty ∧
      (memEvictGo cU m fuel s).lastKey = s.lastKey ∧
      (memEvictGo cU m fuel s).opts = s.opts ∧
      (memEvictGo cU m fuel s).memKeys.Sublist s.memKeys ∧
      (s.memQueue.length ≤ fuel →
        (memEvictGo cU m fuel s).memQueue = [] ∨
        (memEvictGo cU m fuel s).memSize - cU < m) ∧
      (∀ b, ((memEvictGo cU m fuel s).cellAt b).cache = (s.cellAt b).cache ∨
        ((memEvictGo cU m fuel s).cellAt b).cache = none) := by
  intro fuel
  induction fuel with
  | zero =>
      intro s U hinv
      refine ⟨hinv, fun b => rfl, rfl, rfl, rfl, rfl, rfl, rfl, rfl, rfl, rfl, rfl, rfl,
        List.Sublist.refl _, ?_, fun b => Or.inl rfl⟩
      intro hl
      left
      show s.memQueue = []
      exact List.length_eq_zero.mp (by omega)
  | succ fuel ih =>
      intro s U hinv
      rcases hq : s.memQueue with _ | ⟨f, rest⟩
      · rw [memEvictGo_nil cU m fuel s hq]
        exact ⟨hinv, fun b => rfl, rfl, rfl, rfl, rfl, rfl, rfl, rfl, rfl, rfl, rfl, rfl,
          List.Sublist.refl _, fun _ => Or.inl hq, fun b => Or.inl rfl⟩
      · by_cases hstop : s.memSize - cU < m
        · rw [memEvictGo_cons cU m fuel s f rest hq, if_pos hstop]
          exact ⟨hinv, fun b => rfl, rfl, rfl, rfl, rfl, rfl, rfl, rfl, rfl, rfl, rfl, rfl,
            List.Sublist.refl _, fun _ => Or.inr hstop, fun b => Or.inl rfl⟩
        · rw [memEvictGo_cons cU m fuel s f rest hq, if_neg hstop]
          obtain ⟨hacc, hbounds, hpairs, hnodup⟩ := hinv
          set s' : FF :=
            { s with memQueue := rest,
                     memKeys := aerase s.memKeys (s.cellAt f).key,
                     memSize := s.memSize - (s.cellAt f).Used,
                     heap := s.heap.set f { s.cellAt f with cache := none } } with hs'
          have hstab : ∀ b, cpersist (s'.cellAt b) = cpersist (s.cellAt b) := by
            intro b
            have he : s'.cellAt b = (s.setCell f { s.cellAt f with cache := none }).cellAt b := rfl
            rw [he, cellAt_setCell]
            by_cases hb : b = f ∧ f < s.heap.length
            · rw [if_pos hb]
              obtain ⟨rfl, _⟩ := hb
              simp [cpersist, cellRecord]
            · rw [if_neg hb]
          have husedstab : ∀ b, (s'.cellAt b).Used = (s.cellAt b).Used := by
            intro b
            have := congrArg HRec.Used (hstab b)
            simpa [cpersist, cellRecord] using this
          have hkeystab : ∀ b, (s'.cellAt b).key = (s.cellAt b).key := by
            intro b
            have := congrArg HRec.key (hstab b)
            simpa [cpersist, cellRecord] using this
          have hinv2 : memInv s' U := by
            refine ⟨?_, ?_, ?_, ?_⟩
            · show s.memSize - (s.cellAt f).Used = (rest.map (fun a => (s'.cellAt a).Used)).sum
              have h1 : (rest.map (fun a => (s'.cellAt a).Used)).sum =
                  (rest.map (fun a => (s.cellAt a).Used)).sum :=
                sum_map_eq (fun a _ => husedstab a)
              rw [h1]
              rw [hq] at hacc
              simp only [List.map_cons, List.sum_cons] at hacc
              omega
            · intro a ha
              rw [husedstab a]
              exact hbounds a (hq ▸ List.mem_cons_of_mem f ha)
            · intro p hp
              have hpl := mem_of_mem_aerase hp
              have hkne := not_key_mem_aerase hnodup hp
              obtain ⟨hmem, hkey⟩ := hpairs p hpl
              rw [hq] at hmem
              rcases List.mem_cons.mp hmem with heq | hmem2
              · exfalso
                apply hkne
                rw [← hkey, heq]
              · exact ⟨hmem2, (hkeystab p.2) ▸ hkey⟩
            · exact ((aerase_sublist _ _).map Prod.fst).nodup hnodup
          obtain ⟨i1, i2, i3, i4, i5, i6, i7, i8, i9, i10, i11, i12, i13, isub, i14, i15⟩ := ih s' U hinv2
          have hcachestep : ∀ b, (s'.cellAt b).cache = (s.cellAt b).cache ∨ (s'.cellAt b).cache = none := by
            intro b
            have he : s'.cellAt b = (s.setCell f { s.cellAt f with cache := none }).cellAt b := rfl
            rw [he, cellAt_setCell]
            by_cases hb : b = f ∧ f < s.heap.length
            · rw [if_pos hb]
              right
              rfl
            · rw [if_neg hb]
              left
              rfl
          refine ⟨i1, fun b => (i2 b).trans (hstab b), ?_, i4, i5, i6, i7, i8, i9, i10, i11, i12, i13,
            isub.trans (aerase_sublist _ _), ?_, ?_⟩
          · rw [i3]
            show (s.heap.set f _).length = s.heap.length
            simp
          · intro hlen
            apply i14
            show rest.length ≤ fuel
            simp only [List.length_cons] at hlen
            omega
          · intro b
            rcases i15 b with hcc | hcc
            · rcases hcachestep b with hcs | hcs
              · exact Or.inl (hcc.trans hcs)
              · exact Or.inr (hcc.trans hcs)
            · exact Or.inr hcc

/-- A lookup hit is a member. -/
theorem alookup_some_mem {ν : Type} {l : List (List Nat × ν)} {k : List Nat}
    {v : ν} (h : alookup l k = some v) : (k, v) ∈ l := by
  induction l with
  | nil => simp [alookup] at h
  | cons q rest ih =>
      unfold alookup at h
      by_cases hq : q.1 = k
      · rw [if_pos hq] at h
        obtain rfl : q.2 = v := Option.some.injEq _ _ ▸ h
        rw [← hq]
        simp
      · rw [if_neg hq] at h
        exact List.mem_cons_of_mem _ (ih h)

/-- Unfolding `mem.Push` on a cache hit. -/
theorem memPush_cached (s : FF) (a : Nat) (m : Int) (a₀ : Nat)
    (h : alookup s.memKeys (s.cellAt a).key = some a₀) :
    memPush s a m = { s with memQueue := (s.memQueue.erase a₀) ++ [a₀] } := by
  have h0 : memPush s a m =
      match alookup s.memKeys (s.cellAt a).key with
      | some a₀ => { s with memQueue := (s.memQueue.erase a₀) ++ [a₀] }
      | none =>
          let s₁ := memEvict s (s.cellAt a).Used m
          { s₁ with memQueue := s₁.memQueue ++ [a],
                    memKeys := astore s₁.memKeys (s.cellAt a).key a,
                    memSize := s₁.memSize + (s.cellAt a).Used } := rfl
  rw [h0, h]

/-- Unfolding `mem.Push` on a cache miss. -/
theorem memPush_uncached (s : FF) (a : Nat) (m : Int)
    (h : alookup s.memKeys (s.cellAt a).key = none) :
    memPush s a m =
      { memEvict s (s.cellAt a).Used m with
          memQueue := (memEvict s (s.cellAt a).Used m).memQueue ++ [a],
          memKeys := astore (memEvict s (s.cellAt a).Used m).memKeys (s.cellAt a).key a,
          memSize := (memEvict s (s.cellAt a).Used m).memSize + (s.cellAt a).Used } := by
  have h0 : memPush s a m =
      match alookup s.memKeys (s.cellAt a).key with
      | some a₀ => { s with memQueue := (s.memQueue.erase a₀) ++ [a₀] }
      | none =>
          let s₁ := memEvict s (s.cellAt a).Used m
          { s₁ with memQueue := s₁.memQueue ++ [a],
                    memKeys := astore s₁.memKeys (s.cellAt a).key a,
                    memSize := s₁.memSize + (s.cellAt a).Used } := rfl
  rw [h0, h]

/-- A lookup miss survives passing to a sublist. -/
theorem alookup_none_of_sublist {ν : Type} {l' l : List (List Nat × ν)}
    {k : List Nat} (hs : l'.Sublist l) (h : alookup l k = none) :
    alookup l' k = none :=
  (alookup_eq_none_iff l' k).mpr
    (fun p hp => (alookup_eq_none_iff l k).mp h p (hs.mem hp))

/-- What one `mem.Push` does: it preserves the Mem invariant, keeps the
running total within the best-effort bound `maxalloc + 2 * U`, and touches
only the mem bookkeeping fields and heap cache slots. -/
theorem memPush_spec (s : FF) (a : Nat) (m U : Int)
    (hinv : memInv s U) (hM : 0 ≤ m) (hU : 0 ≤ U)
    (ha : 0 ≤ (s.cellAt a).Used ∧ (s.cellAt a).Used ≤ U) :
    memInv (memPush s a m) U ∧
    (s.memSize ≤ m + 2 * U → (memPush s a m).memSize ≤ m + 2 * U) ∧
    (∀ b, cpersist ((memPush s a m).cellAt b) = cpersist (s.cellAt b)) ∧
    (memPush s a m).heap.length = s.heap.length ∧
    (memPush s a m).keys = s.keys ∧
    (memPush s a m).disk = s.disk ∧
    (memPush s a m).streamPages = s.streamPages ∧
    (memPush s a m).binCells = s.binCells ∧
    (memPush s a m).binIds = s.binIds ∧
    (memPush s a m).potCells = s.potCells ∧
    (memPush s a m).potMaxid = s.potMaxid ∧
    (memPush s a m).dirty = s.dirty ∧
    (memPush s a m).lastKey = s.lastKey ∧
    (memPush s a m).opts = s.opts ∧
    (∀ b, ((memPush s a m).cellAt b).cache = (s.cellAt b).cache ∨
      ((memPush s a m).cellAt b).cache = none) := by
  obtain ⟨hacc, hbounds, hpairs, hnodup⟩ := hinv
  rcases halk : alookup s.memKeys (s.cellAt a).key with _ | a₀
  · -- not cached: evict, then append
    rw [memPush_uncached s a m halk]
    obtain ⟨⟨eacc, ebounds, epairs, enodup⟩, e2, e3, e4, e5, e6, e7, e8, e9, e10,
        e11, e12, e13, esub, e14, e15⟩ :=
      memEvictGo_spec (s.cellAt a).Used m s.memQueue.length s U
        ⟨hacc, hbounds, hpairs, hnodup⟩
    set s₁ := memEvictGo (s.cellAt a).Used m s.memQueue.length s with hs₁
    have hev : memEvict s (s.cellAt a).Used m = s₁ := rfl
    rw [hev]
    have husd : ∀ b, (s₁.cellAt b).Used = (s.cellAt b).Used := by
      intro b
      have := congrArg HRec.Used (e2 b)
      simpa [cpersist, cellRecord] using this
    have hkey : ∀ b, (s₁.cellAt b).key = (s.cellAt b).key := by
      intro b
      have := congrArg HRec.key (e2 b)
      simpa [cpersist, cellRecord] using this
    have hnone₁ : alookup s₁.memKeys (s.cellAt a).key = none :=
      alookup_none_of_sublist esub halk
    have hst : astore s₁.memKeys (s.cellAt a).key a =
        s₁.memKeys ++ [((s.cellAt a).key, a)] :=
      astore_of_lookup_none _ _ _ hnone₁
    refine ⟨⟨?_, ?_, ?_, ?_⟩, ?_, e2, e3, e4, e5, e6, e7, e8, e9, e10, e11, e12, e13,
      fun b => e15 b⟩
    · show s₁.memSize + (s.cellAt a).Used =
        ((s₁.memQueue ++ [a]).map (fun b => (s₁.cellAt b).Used)).sum
      rw [List.map_append, List.sum_append]
      simp only [List.map_cons, List.map_nil, List.sum_cons, List.sum_nil]
      rw [husd a, eacc]
      ring
    · intro b hb
      replace hb : b ∈ s₁.memQueue ++ [a] := hb
      show 0 ≤ (s₁.cellAt b).Used ∧ (s₁.cellAt b).Used ≤ U
      rcases List.mem_append.mp hb with hb' | hb'
      · exact ebounds b hb'
      · have heq : b = a := by simpa using hb'
        rw [heq, husd a]
        exact ha
    · intro p hp
      replace hp : p ∈ astore s₁.memKeys (s.cellAt a).key a := hp
      show p.2 ∈ s₁.memQueue ++ [a] ∧ (s₁.cellAt p.2).key = p.1
      rw [hst] at hp
      rcases List.mem_append.mp hp with hp' | hp'
      · obtain ⟨hm, hk⟩ := epairs p hp'
        exact ⟨List.mem_append_left _ hm, hk⟩
      · obtain rfl : p = ((s.cellAt a).key, a) := by simpa using hp'
        refine ⟨List.mem_append_right _ (by simp), hkey a⟩
    · show ((astore s₁.memKeys (s.cellAt a).key a).map Prod.fst).Nodup
      rw [hst, List.map_append]
      simp only [List.map_cons, List.map_nil]
      refine List.Nodup.append enodup (List.nodup_singleton _) ?_
      intro k hk1 hk2
      obtain rfl : k = (s.cellAt a).key := by simpa using hk2
      obtain ⟨p, hp, hpk⟩ := List.mem_map.mp hk1
      exact (alookup_eq_none_iff _ _).mp hnone₁ p hp hpk
    · intro _
      show s₁.memSize + (s.cellAt a).Used ≤ m + 2 * U
      rcases e14 (le_refl _) with hemp | hlt
      · rw [eacc, hemp]
        simp only [List.map_nil, List.sum_nil]
        omega
      · omega
  · -- already cached: move to back
    rw [memPush_cached s a m a₀ halk]
    have hmem₀ : a₀ ∈ s.memQueue := (hpairs _ (alookup_some_mem halk)).1
    have hperm : (s.memQueue.erase a₀ ++ [a₀]).Perm s.memQueue :=
      (List.perm_append_singleton _ _).trans (List.perm_cons_erase hmem₀).symm
    refine ⟨⟨?_, ?_, ?_, hnodup⟩, ?_, fun b => rfl, rfl, rfl, rfl, rfl, rfl,
      rfl, rfl, rfl, rfl, rfl, rfl, fun b => Or.inl rfl⟩
    · show s.memSize = _
      rw [hacc]
      exact (List.Perm.sum_eq (hperm.map _)).symm
    · intro b hb
      exact hbounds b (hperm.mem_iff.mp hb)
    · intro p hp
      obtain ⟨hm, hk⟩ := hpairs p hp
      exact ⟨hperm.mem_iff.mpr hm, hk⟩
    · intro hb
      exact hb

/-- Folding `mem.Push` over a sequence of cells keeps the Mem invariant
and the best-effort bound `maxalloc + 2 * U`. -/
theorem pushMany_bound (M U : Int) (hM : 0 ≤ M) (hU : 0 ≤ U) :
    ∀ (addrs : List Nat) (s : FF), memInv s U → s.memSize ≤ M + 2 * U →
      (∀ a ∈ addrs, 0 ≤ (s.cellAt a).Used ∧ (s.cellAt a).Used ≤ U) →
      memInv (pushMany s addrs M) U ∧ (pushMany s addrs M).memSize ≤ M + 2 * U := by
  intro addrs
  induction addrs with
  | nil =>
      intro s hinv hbound _
      exact ⟨hinv, hbound⟩
  | cons a rest ih =>
      intro s hinv hbound ha
      have hstep : pushMany s (a :: rest) M = pushMany (memPush s a M) rest M := rfl
      rw [hstep]
      obtain ⟨pinv, pbnd, pstab, _⟩ :=
        memPush_spec s a M U hinv hM hU (ha a (List.mem_cons_self a rest))
      refine ih (memPush s a M) pinv (pbnd hbound) ?_
      intro b hb
      have husd : ((memPush s a M).cellAt b).Used = (s.cellAt b).Used := by
        have := congrArg HRec.Used (pstab b)
        simpa [cpersist, cellRecord] using this
      rw [husd]
      exact ha b (List.mem_cons_of_mem a hb)

/-- C6, counterexample.  With budget `M = 10`, pushing three cells of
`Used = 9` (distinct keys) yields a quiescent Mem byte total of 27: the
eviction loop stops as soon as `size - c.Used < maxalloc` (not when
`size + c.Used ≤ maxalloc` as the claim states), and 27 exceeds the
claimed bound `M + max(used) = 19`. -/
theorem c6_counterexample :
    (pushMany c6s0 [0, 1, 2] 10).memSize = 27 ∧
    (∀ a ∈ [0, 1, 2], (c6s0.cellAt a).Used ≤ 9) ∧
    ¬((pushMany c6s0 [0, 1, 2] 10).memSize ≤ 10 + 9) := by
  refine ⟨by decide, by decide, by decide⟩

/-- C6, corrected.  `mem.Push` evicts from the front only until
`size - c.Used < maxalloc` (the source's condition), so the quiescent
total is bounded by `M + 2 * max(used)`, not by `M + max(used)`: starting
from an empty cache, after any sequence of pushes of cells whose `Used`
lies in `[0, U]`, the running total is at most `M + 2 * U`. -/
theorem c6_cache_bound_amended (M U : Int) (s : FF) (addrs : List Nat)
    (hM : 0 < M) (hU : 0 ≤ U)
    (hq : s.memQueue = []) (hk : s.memKeys = []) (hz : s.memSize = 0)
    (ha : ∀ a ∈ addrs, 0 ≤ (s.cellAt a).Used ∧ (s.cellAt a).Used ≤ U) :
    (pushMany s addrs M).memSize ≤ M + 2 * U := by
  have hinv : memInv s U := by
    refine ⟨?_, ?_, ?_, ?_⟩
    · rw [hz, hq]
      rfl
    · intro a hamem
      rw [hq] at hamem
      cases hamem
    · intro p hp
      rw [hk] at hp
      cases hp
    · rw [hk]
      exact List.nodup_nil
  exact (pushMany_bound M U (by omega) hU addrs s hinv (by omega) ha).2

/-- C6, witness: the amended bound applied to the concrete three-push
sequence of the counterexample (`M = 10`, `U = 9`): 27 ≤ 28. -/
theorem c6_cache_bound_amended_witness :
    (0 : Int) < 10 ∧ (pushMany c6s0 [0, 1, 2] 10).memSize ≤ 10 + 2 * 9 :=
  ⟨by decide,
   c6_cache_bound_amended 10 9 c6s0 [0, 1, 2] (by decide) (by decide)
     (by decide) (by decide) (by decide) (by decide)⟩

/-- C4, witness: the general best-fit statement applied to the concrete
bin of allocations {1,2,4,8,16,32,64,128,256,512} with `minsize = 127`,
which yields the cell of allocation 128 (heap address 7). -/
theorem c4_recycle_best_fit_witness :
    sortedBin c4s0 ∧
    (7 ∈ c4s0.binCells ∧ (127 : Int) ≤ (c4s0.cellAt 7).Allocated ∧
     (∀ b ∈ c4s0.binCells, (127 : Int) ≤ (c4s0.cellAt b).Allocated →
        (c4s0.cellAt 7).Allocated ≤ (c4s0.cellAt b).Allocated) ∧
     (∃ i, c4s0.binCells.get? i = some 7 ∧
        (binRecycle c4s0 127).1.binCells = c4s0.binCells.eraseIdx i ∧
        (binRecycle c4s0 127).1.binIds = nerase c4s0.binIds (c4s0.cellAt 7).CellID)) :=
  ⟨by decide,
   c4_recycle_best_fit.1 c4s0 127 (binRecycle c4s0 127).1 7 (by decide) (by decide)⟩

/-- C10, code_bug.  After `put(K,V); delete(K)` every key is dead, so the
reopened session — `FlatFile.load` guards `stream.Open` behind
`ff.Len() > 0` — has zero open pages while the bin still holds the deleted
cell (page index 0).  The next put recycles that cell and
`stream.GetCellPage` indexes the empty page slice: panic. -/
theorem c10_reopen_recycle_panics :
    (ffPut freshS [107] [97]).isOk = true ∧
    (ffDelete c10s1 [107]).isOk = true ∧
    (ffreopen c10s2).isOk = true ∧
    c10s3.streamPages = 0 ∧
    c10s3.binCells.length = 1 ∧
    (ffPut c10s3 [108] [98]).isPan = true := by
  refine ⟨by decide, by decide, by decide, by decide, by decide, by decide⟩

/-- Unfolding `lastLiveK` on a cons. -/
theorem lastLiveK_cons (s₀ : FF) (e : Nat × Nat) (rest : List (Nat × Nat))
    (K : List Nat) :
    lastLiveK s₀ (e :: rest) K =
      (match lastLiveK s₀ rest K with
       | some x => some x
       | none =>
           if (s₀.cellAt e.2).CellState ≠ .StateDeleted ∧ (s₀.cellAt e.2).key = K
           then some e.2
           else none) := rfl

/-- `lastLiveK` only looks at the heap. -/
theorem lastLiveK_congr (s₁ s₀ : FF) (hh : s₁.heap = s₀.heap)
    (K : List Nat) :
    ∀ entries, lastLiveK s₁ entries K = lastLiveK s₀ entries K := by
  have hc : ∀ b, s₁.cellAt b = s₀.cellAt b := by
    intro b
    unfold FF.cellAt
    rw [hh]
  intro entries
  induction entries with
  | nil => rfl
  | cons q rest ihe =>
      rw [lastLiveK_cons, lastLiveK_cons, ihe, hc q.2]

